import Mathlib

/-!
Shallow embedding of `src/quicknlp/modules/transformer.py` (quick-nlp).

Tensors of shape (seq_len, batch, dim) are lists of lists of lists of
rationals.  The inner multi-head attention kernel (`MultiHeadAttention`,
imported from `.attention` and not part of the embedded file) is treated as
an abstract capability, passed in as a function parameter, matching the
spec's scoping: only its shape contract matters.  Likewise `LayerNorm` is an
abstract per-feature-vector map and `get_list` is modelled from the spec.
Dropout is modelled with an explicit stream of uniform draws so that
determinism statements are meaningful.
-/

set_option autoImplicit false

namespace QuickNLP

/-- A feature vector: one position of one batch element (the last tensor
dimension). -/
abbrev Vec := List ℚ

/-- A matrix of shape [batch, dim]: one sequence step across the batch, or a
flattened [rows, dim] tensor. -/
abbrev Mat := List Vec

/-- A tensor of shape [seq_len, batch, dim]. -/
abbrev T3 := List Mat

/-- Modelled from the spec: the multi-head attention kernel (class
`MultiHeadAttention` from `.attention`, which is outside the embedded file)
is consumed as a capability (spec sections 1 and 6).  It maps one query step
of shape [batch, dim] plus key and value sequences to an attended output
shaped like the query step. -/
abbrev Kernel := Mat → T3 → T3 → Mat

/-- Dot product of two feature vectors. -/
def dot (u v : Vec) : ℚ := (List.zipWith (fun a b => a * b) u v).sum

/-- Weights of one `nn.Linear`: a [out_features, in_features] weight matrix
and a [out_features] bias. -/
structure LinearW where
  weight : List Vec
  bias : Vec

/-- Application of `nn.Linear` to one feature vector. -/
def linearForward (l : LinearW) (v : Vec) : Vec :=
  List.zipWith (fun a b => a + b) (l.weight.map (fun row => dot row v)) l.bias

/-- Application of `nn.ReLU` to one feature vector. -/
def relu (v : Vec) : Vec := v.map (fun x => max x 0)

/-- Elementwise addition of two feature vectors. -/
def addVec (u v : Vec) : Vec := List.zipWith (fun a b => a + b) u v

/-- Elementwise addition of two [batch, dim] matrices. -/
def addMat (m n : Mat) : Mat := List.zipWith addVec m n

/-- Elementwise addition of two [seq_len, batch, dim] tensors. -/
def addT (s t : T3) : T3 := List.zipWith addMat s t

/-- One element of `nn.Dropout`: with training on, the element is zeroed when
its uniform draw `u` falls below the rate `p` and otherwise rescaled by
`1/(1-p)`; with training off, the element passes through unchanged. -/
def dropoutElem (train : Bool) (p u x : ℚ) : ℚ :=
  if train then (if u < p then 0 else x / (1 - p)) else x

/-- `nn.Dropout` over one row, element `j` using draw `ru j`. -/
def dropoutRow (train : Bool) (p : ℚ) (ru : ℕ → ℚ) (row : Vec) : Vec :=
  (List.range row.length).map (fun j => dropoutElem train p (ru j) (row.getD j 0))

/-- `nn.Dropout` over a [rows, dim] matrix, element `(i, j)` using draw
`r i j`. -/
def dropoutMat (train : Bool) (p : ℚ) (r : ℕ → ℕ → ℚ) (m : Mat) : Mat :=
  (List.range m.length).map (fun i => dropoutRow train p (r i) (m.getD i []))

/-- Weights of `PositionFeedForward`: the two `nn.Linear` layers of its
`nn.Sequential` (dim to nhid, then nhid back to dim). -/
structure PFFW where
  lin1 : LinearW
  lin2 : LinearW

/-- `PositionFeedForward.forward` (transformer.py lines 13-27): per row,
Linear to the hidden width, ReLU, Linear back to the output width, then
Dropout with the per-element draws `r`. -/
def positionFeedForward (w : PFFW) (train : Bool) (p : ℚ) (r : ℕ → ℕ → ℚ)
    (m : Mat) : Mat :=
  dropoutMat train p r (m.map (fun v => linearForward w.lin2 (relu (linearForward w.lin1 v))))

/-- Modelled from the spec: `LayerNorm` (imported from `.layer_norm`, outside
the embedded file) is an arbitrary normalization carrying only its own
parameters (spec section 4.1); it is taken as the abstract parameter `ln`,
applied to every feature vector of the tensor. -/
def normT (ln : Vec → Vec) (t : T3) : T3 := t.map (fun m => m.map ln)

/-- `SubLayer.forward` (transformer.py lines 37-38) on a [sl, bs, dim]
tensor: `input_tensor + sublayer(self.layer_norm(input_tensor))`. -/
def subLayerForward (ln : Vec → Vec) (x : T3) (f : T3 → T3) : T3 :=
  addT x (f (normT ln x))

/-- `SubLayer.forward` on a flattened [rows, dim] tensor, as invoked on
`attention_output.view(-1, self.dim)`. -/
def subLayerForwardFlat (ln : Vec → Vec) (x : Mat) (f : Mat → Mat) : Mat :=
  addMat x (f (x.map ln))

/-- The loop of `AttentionLayer.forward`: `for index, input_step in
enumerate(input_tensor, 1)`, the kernel is applied to each query step with
keys and values truncated to `index` steps under masking and to `seqLen`
(the query tensor's leading dimension) otherwise. -/
def attentionLoop (attn : Kernel) (keys values : T3) (seqLen : ℕ) (mask : Bool) :
    ℕ → T3 → T3
  | _, [] => []
  | index, step :: rest =>
      let maskIndex := if mask then index else seqLen
      attn step (keys.take maskIndex) (values.take maskIndex) ::
        attentionLoop attn keys values seqLen mask (index + 1) rest

/-- `AttentionLayer.forward` (transformer.py lines 49-56). -/
def attentionForward (attn : Kernel) (input keys values : T3) (mask : Bool) : T3 :=
  attentionLoop attn keys values input.length mask 1 input

/-- Configuration recorded by `AttentionLayer.__init__`. -/
structure AttentionLayerCfg where
  dim : ℕ
  nhid : ℕ
deriving DecidableEq

/-- `AttentionLayer.__init__` (transformer.py lines 42-47): records the
feature dimension and the per-head width `in_features // num_heads` (Python
floor division).  The source performs no divisibility check, so for a
positive head count construction always yields a configuration; the floored
width is what gets handed to the `MultiHeadAttention` kernel. -/
def attentionLayerInit (in_features num_heads : ℕ) : AttentionLayerCfg :=
  { dim := in_features, nhid := in_features / num_heads }

/-- Row-major reshape of a flat [rows, dim] matrix back to [sl, bs, dim],
modelling `.view(shape)` after `.view(-1, self.dim)`. -/
def view3 (sl bs : ℕ) (rows : Mat) : T3 :=
  (List.range sl).map (fun i => (List.range bs).map (fun j => rows.getD (i * bs + j) []))

/-- Weights of one `TransformerLayer`: its `AttentionLayer` kernel, its
`PositionFeedForward`, and the norms of its two `SubLayer`s. -/
structure TransformerLayerW where
  attention : Kernel
  linear : PFFW
  ln0 : Vec → Vec
  ln1 : Vec → Vec

/-- `TransformerLayer.forward` (transformer.py lines 68-72): residual
self-attention sublayer (unmasked) on the [sl, bs, dim] input, then the
feed-forward sublayer applied with the sequence dimension flattened into the
batch dimension, reshaped back to the input's shape. -/
def transformerLayerForward (w : TransformerLayerW) (train : Bool) (p : ℚ)
    (r : ℕ → ℕ → ℚ) (x : T3) : T3 :=
  let sl := x.length
  let bs := (x.headD []).length
  let attOut := subLayerForward w.ln0 x (fun y => attentionForward w.attention y y y false)
  view3 sl bs (subLayerForwardFlat w.ln1 attOut.flatten (positionFeedForward w.linear train p r))

/-- Weights of one `TransformerLayerDecoder`: the inherited fields plus the
separately constructed `decoder_attention` kernel and a third sublayer
norm. -/
structure TransformerLayerDecoderW where
  attention : Kernel
  decoder_attention : Kernel
  linear : PFFW
  ln0 : Vec → Vec
  ln1 : Vec → Vec
  ln2 : Vec → Vec

/-- `TransformerLayerDecoder.forward` (transformer.py lines 82-88): causal
residual self-attention over the decoder input, then a residual
cross-attention sublayer whose keys and values are the encoder input — the
source invokes `self.attention` here, not the separately constructed
`self.decoder_attention` — then the flattened feed-forward sublayer,
reshaped to the decoder input's shape. -/
def transformerLayerDecoderForward (w : TransformerLayerDecoderW) (train : Bool)
    (p : ℚ) (r : ℕ → ℕ → ℚ) (encoder_input decoder_input : T3) : T3 :=
  let sl := decoder_input.length
  let bs := (decoder_input.headD []).length
  let attOut := subLayerForward w.ln0 decoder_input
    (fun y => attentionForward w.attention y y y true)
  let decAttOut := subLayerForward w.ln1 attOut
    (fun y => attentionForward w.attention y encoder_input encoder_input false)
  view3 sl bs (subLayerForwardFlat w.ln2 decAttOut.flatten (positionFeedForward w.linear train p r))

/-- Modelled from the spec: `get_list` from `quicknlp.utils` is outside the
embedded file; per spec section 4.6, a scalar hyperparameter is broadcast to
all layers, while a list must have length `num_layers`, a mismatch being a
configuration error surfaced at construction. -/
def get_list (x : ℕ ⊕ List ℕ) (num_layers : ℕ) : Option (List ℕ) :=
  match x with
  | Sum.inl a => some (List.replicate num_layers a)
  | Sum.inr l => if l.length = num_layers then some l else none

/-- `TransformerEncoder.__init__` (transformer.py lines 93-100): resolve the
`ffnhid` and `num_heads` hyperparameters through `get_list` and record, for
each layer index `i`, the pair `(num_heads[i], ffnhid[i])` its
`TransformerLayer` is constructed with. -/
def transformerEncoderInit (num_layers : ℕ) (num_heads ffnhid : ℕ ⊕ List ℕ) :
    Option (List (ℕ × ℕ)) := do
  let ff ← get_list ffnhid num_layers
  let nh ← get_list num_heads num_layers
  return (List.range num_layers).map (fun i => (nh.getD i 0, ff.getD i 0))

/-- The loop of `TransformerEncoder.forward`, threading the running input
through the layers and collecting per-layer outputs; layer `i` uses the
dropout draws `r i`. -/
def transformerEncoderStack (train : Bool) (p : ℚ) (r : ℕ → ℕ → ℕ → ℚ) :
    ℕ → List TransformerLayerW → T3 → T3 × List T3
  | _, [], x => (x, [])
  | i, l :: ls, x =>
      let out := transformerLayerForward l train p (r i) x
      let rest := transformerEncoderStack train p r (i + 1) ls out
      (rest.1, out :: rest.2)

/-- `TransformerEncoder.forward` (transformer.py lines 102-109): feed the
input through the layers in order, each layer's output feeding the next
layer, and return the final output with the list of per-layer outputs. -/
def transformerEncoderForward (layers : List TransformerLayerW) (train : Bool)
    (p : ℚ) (r : ℕ → ℕ → ℕ → ℚ) (x : T3) : T3 × List T3 :=
  transformerEncoderStack train p r 0 layers x

/-- The loop of `TransformerDecoder.forward`: `zip(encoder_inputs,
self.layers)` stops at the shorter list, threading the decoder state. -/
def transformerDecoderStack (train : Bool) (p : ℚ) (r : ℕ → ℕ → ℕ → ℚ) :
    ℕ → List T3 → List TransformerLayerDecoderW → T3 → T3 × List T3
  | _, [], _, x => (x, [])
  | _, _ :: _, [], x => (x, [])
  | i, e :: es, l :: ls, x =>
      let out := transformerLayerDecoderForward l train p (r i) e x
      let rest := transformerDecoderStack train p r (i + 1) es ls out
      (rest.1, out :: rest.2)

/-- `TransformerDecoder.forward` (transformer.py lines 137-144). -/
def transformerDecoderForward (layers : List TransformerLayerDecoderW)
    (train : Bool) (p : ℚ) (r : ℕ → ℕ → ℕ → ℚ) (encoder_inputs : List T3)
    (decoder_inputs : T3) : T3 × List T3 :=
  transformerDecoderStack train p r 0 encoder_inputs layers decoder_inputs

/-- Shape predicate for a [batch, dim] matrix. -/
def MatShape (m : Mat) (bs d : ℕ) : Prop :=
  m.length = bs ∧ ∀ v ∈ m, v.length = d

instance (m : Mat) (bs d : ℕ) : Decidable (MatShape m bs d) := by
  unfold MatShape; infer_instance

/-- Shape predicate for a [seq_len, batch, dim] tensor. -/
def T3Shape (t : T3) (sl bs d : ℕ) : Prop :=
  t.length = sl ∧ ∀ m ∈ t, MatShape m bs d

instance (t : T3) (sl bs d : ℕ) : Decidable (T3Shape t sl bs d) := by
  unfold T3Shape; infer_instance

/-- The residual formula of spec section 4.1, written from the spec's words:
`input + transform(normalize(input))`, the normalization applied to the
pre-transformation input. -/
def residualSpec (ln : Vec → Vec) (x : T3) (t : T3 → T3) : T3 :=
  addT x (t (normT ln x))

/-- The flattened-tensor version of the spec's residual formula. -/
def residualSpecFlat (ln : Vec → Vec) (x : Mat) (t : Mat → Mat) : Mat :=
  addMat x (t (x.map ln))

/-- A transformation returning zeros of the same shape as its input. -/
def zerosLike (t : T3) : T3 := t.map (fun m => m.map (fun v => v.map (fun _ => 0)))

/-- A normalization preserves each feature vector's length. -/
def lnPres (ln : Vec → Vec) : Prop := ∀ v, (ln v).length = v.length

/-- The spec's shape contract for the attention kernel: the attended output
is shaped like the query step. -/
def kernelOK (k : Kernel) (bs d : ℕ) : Prop :=
  ∀ q ks vs, MatShape q bs d → MatShape (k q ks vs) bs d

/-- Well-formed feed-forward weights for feature width `d`: the second
Linear projects back to `d` features. -/
def pffOK (w : PFFW) (d : ℕ) : Prop :=
  w.lin2.weight.length = d ∧ w.lin2.bias.length = d

/-- Well-formed weights of one encoder layer at batch `bs`, width `d`. -/
def layerOK (w : TransformerLayerW) (bs d : ℕ) : Prop :=
  kernelOK w.attention bs d ∧ lnPres w.ln0 ∧ lnPres w.ln1 ∧ pffOK w.linear d

/-- Well-formed weights of one decoder layer at batch `bs`, width `d`. -/
def decLayerOK (w : TransformerLayerDecoderW) (bs d : ℕ) : Prop :=
  kernelOK w.attention bs d ∧ lnPres w.ln0 ∧ lnPres w.ln1 ∧ lnPres w.ln2 ∧
    pffOK w.linear d

/-- A kernel that copies the query step through (used to instantiate the
abstract attention capability in concrete checks). -/
def idKernel : Kernel := fun q _ _ => q

/-- A kernel sensitive to every entry of its keys and values: each output
entry adds the sums of all key and value entries to the query entry. -/
def sumsKernel : Kernel := fun q ks vs =>
  q.map (fun row => row.map (fun x =>
    x + (ks.map (fun m => (m.map (fun v => v.sum)).sum)).sum
      + (vs.map (fun m => (m.map (fun v => v.sum)).sum)).sum))

/-! ### Lemmas about the attention loop -/

theorem attentionLoop_length (attn : Kernel) (keys values : T3) (n : ℕ)
    (mask : Bool) (i0 : ℕ) (l : T3) :
    (attentionLoop attn keys values n mask i0 l).length = l.length := by
  induction l generalizing i0 with
  | nil => rfl
  | cons step rest ih => simp [attentionLoop, ih]

theorem attentionLoop_getD (attn : Kernel) (keys values : T3) (n : ℕ)
    (mask : Bool) (l : T3) (i0 idx : ℕ) (h : idx < l.length) :
    (attentionLoop attn keys values n mask i0 l).getD idx [] =
      attn (l.getD idx []) (keys.take (if mask then i0 + idx else n))
        (values.take (if mask then i0 + idx else n)) := by
  induction l generalizing i0 idx with
  | nil => simp at h
  | cons step rest ih =>
      cases idx with
      | zero => simp [attentionLoop]
      | succ k =>
          have h2 : k < rest.length := by simpa using h
          have h3 : i0 + 1 + k = i0 + (k + 1) := by omega
          simp only [attentionLoop, List.getD_cons_succ]
          rw [ih (i0 + 1) k h2, h3]

theorem attentionForward_getD (attn : Kernel) (input keys values : T3)
    (mask : Bool) (idx : ℕ) (h : idx < input.length) :
    (attentionForward attn input keys values mask).getD idx [] =
      attn (input.getD idx []) (keys.take (if mask then idx + 1 else input.length))
        (values.take (if mask then idx + 1 else input.length)) := by
  have h1 := attentionLoop_getD attn keys values input.length mask input 1 idx h
  have h2 : 1 + idx = idx + 1 := by omega
  rw [attentionForward, h1, h2]

/-! ### C2: causal masking truncates keys and values to the first i steps -/

/-- C2: for a causal invocation of the attention block, the output at query
position `i` (0-indexed `idx`) is the kernel applied to exactly the first
`idx + 1` key/value steps, so two key/value sequences agreeing on those
steps give identical outputs at that position. -/
theorem c2_causal_prefix_invariance (attn : Kernel)
    (input keys values keys' values' : T3) (idx : ℕ) (h : idx < input.length)
    (hk : keys.take (idx + 1) = keys'.take (idx + 1))
    (hv : values.take (idx + 1) = values'.take (idx + 1)) :
    (attentionForward attn input keys values true).getD idx [] =
      attn (input.getD idx []) (keys.take (idx + 1)) (values.take (idx + 1)) ∧
    (attentionForward attn input keys values true).getD idx [] =
      (attentionForward attn input keys' values' true).getD idx [] := by
  have e1 := attentionForward_getD attn input keys values true idx h
  have e2 := attentionForward_getD attn input keys' values' true idx h
  simp only [if_pos] at e1 e2
  exact ⟨e1, by rw [e1, e2, hk, hv]⟩

/-- Concrete check of the causal prefix property: two-step query, key/value
sequences agreeing on step 1 only, equal outputs at position 1. -/
theorem c2_witness :
    (0 < ([[[(1 : ℚ)]], [[2]]] : T3).length ∧
      ([[[(5 : ℚ)]], [[7]]] : T3).take 1 = ([[[(5 : ℚ)]], [[9]]] : T3).take 1) ∧
    ((attentionForward sumsKernel [[[1]], [[2]]] [[[5]], [[7]]] [[[5]], [[7]]] true).getD 0 [] =
      sumsKernel (([[[(1 : ℚ)]], [[2]]] : T3).getD 0 [])
        (([[[(5 : ℚ)]], [[7]]] : T3).take 1) (([[[(5 : ℚ)]], [[7]]] : T3).take 1) ∧
    (attentionForward sumsKernel [[[1]], [[2]]] [[[5]], [[7]]] [[[5]], [[7]]] true).getD 0 [] =
      (attentionForward sumsKernel [[[1]], [[2]]] [[[5]], [[9]]] [[[5]], [[9]]] true).getD 0 []) :=
  ⟨⟨by decide, by decide⟩,
    c2_causal_prefix_invariance sumsKernel [[[1]], [[2]]] [[[5]], [[7]]] [[[5]], [[7]]]
      [[[5]], [[9]]] [[[5]], [[9]]] 0 (by decide) (by decide) (by decide)⟩

/-! ### C1: non-causal attention truncates keys/values to the query length -/

/-- C1 counterexample: with a one-step query and two-step key/value
sequences, changing the second key/value step leaves the non-causal output
unchanged, even under a kernel sensitive to every key and value entry —
the kernel inputs for each position are truncated to the query length, not
the full key/value sequence. -/
theorem c1_counterexample :
    attentionForward sumsKernel [[[1]]] [[[10]], [[20]]] [[[10]], [[20]]] false =
      attentionForward sumsKernel [[[1]]] [[[10]], [[99]]] [[[10]], [[99]]] false ∧
    ([[[(10 : ℚ)]], [[20]]] : T3) ≠ [[[(10 : ℚ)]], [[99]]] := by
  exact ⟨rfl, by decide⟩

/-- C1 (amended): for a non-causal invocation, the output at each query
position is the kernel applied to the key/value sequences truncated to the
query sequence length; when the key/value sequences are no longer than the
query this is the full sequence, and key/value entries beyond the query
length never reach the kernel (outputs agree whenever the length-
`input.length` prefixes of keys and values agree). -/
theorem c1_amended_noncausal_prefix (attn : Kernel)
    (input keys values keys' values' : T3) (idx : ℕ) (h : idx < input.length)
    (hk : keys.take input.length = keys'.take input.length)
    (hv : values.take input.length = values'.take input.length) :
    (attentionForward attn input keys values false).getD idx [] =
      attn (input.getD idx []) (keys.take input.length) (values.take input.length) ∧
    (keys.length ≤ input.length → keys.take input.length = keys) ∧
    (attentionForward attn input keys values false).getD idx [] =
      (attentionForward attn input keys' values' false).getD idx [] := by
  have e1 := attentionForward_getD attn input keys values false idx h
  have e2 := attentionForward_getD attn input keys' values' false idx h
  simp only [if_neg, Bool.false_eq_true, not_false_iff] at e1 e2
  refine ⟨e1, fun hle => List.take_of_length_le hle, ?_⟩
  rw [e1, e2, hk, hv]

/-- Concrete check of the amended non-causal property: one-step query,
two-step key/value sequences agreeing on the first step only. -/
theorem c1_witness :
    (0 < ([[[(1 : ℚ)]]] : T3).length ∧
      ([[[(10 : ℚ)]], [[20]]] : T3).take 1 = ([[[(10 : ℚ)]], [[99]]] : T3).take 1) ∧
    ((attentionForward sumsKernel [[[1]]] [[[10]], [[20]]] [[[10]], [[20]]] false).getD 0 [] =
      sumsKernel (([[[(1 : ℚ)]]] : T3).getD 0 [])
        (([[[(10 : ℚ)]], [[20]]] : T3).take 1) (([[[(10 : ℚ)]], [[20]]] : T3).take 1) ∧
    (([[[(10 : ℚ)]], [[20]]] : T3).length ≤ ([[[(1 : ℚ)]]] : T3).length →
      ([[[(10 : ℚ)]], [[20]]] : T3).take 1 = [[[10]], [[20]]]) ∧
    (attentionForward sumsKernel [[[1]]] [[[10]], [[20]]] [[[10]], [[20]]] false).getD 0 [] =
      (attentionForward sumsKernel [[[1]]] [[[10]], [[99]]] [[[10]], [[99]]] false).getD 0 []) :=
  ⟨⟨by decide, by decide⟩,
    c1_amended_noncausal_prefix sumsKernel [[[1]]] [[[10]], [[20]]] [[[10]], [[20]]]
      [[[10]], [[99]]] [[[10]], [[99]]] 0 (by decide) (by decide) (by decide)⟩

/-! ### C3: construction performs no divisibility check -/

/-- C3 counterexample: with feature dimension 5 and 2 heads — not evenly
divisible — construction succeeds and silently records the floored per-head
width 2; no configuration error is surfaced. -/
theorem c3_counterexample :
    attentionLayerInit 5 2 = { dim := 5, nhid := 2 } ∧ ¬(2 ∣ 5) :=
  ⟨rfl, by decide⟩

/-- C3 (amended): constructing an attention block never checks divisibility:
for every feature dimension and positive head count it succeeds, recording
the floor-divided per-head width, and the heads exactly cover the feature
dimension precisely when the head count divides it. -/
theorem c3_amended_init_unchecked (d h : ℕ) (hpos : 0 < h) :
    (attentionLayerInit d h).dim = d ∧
    (attentionLayerInit d h).nhid = d / h ∧
    (h * (attentionLayerInit d h).nhid = d ↔ h ∣ d) := by
  refine ⟨rfl, rfl, ?_⟩
  show h * (d / h) = d ↔ h ∣ d
  exact ⟨fun he => ⟨d / h, he.symm⟩, fun hd => Nat.mul_div_cancel' hd⟩

/-- Concrete check of the amended construction behavior at the non-divisible
configuration dim 5, heads 2. -/
theorem c3_witness :
    0 < 2 ∧
    ((attentionLayerInit 5 2).dim = 5 ∧
     (attentionLayerInit 5 2).nhid = 5 / 2 ∧
     (2 * (attentionLayerInit 5 2).nhid = 5 ↔ 2 ∣ 5)) :=
  ⟨by decide, c3_amended_init_unchecked 5 2 (by decide)⟩

/-! ### C5: the residual sublayer formula -/

theorem addVec_map_zero (v u : Vec) (h : u.length = v.length) :
    addVec v (u.map (fun _ => 0)) = v := by
  induction v generalizing u with
  | nil => simp [addVec]
  | cons a as ih =>
      cases u with
      | nil => simp at h
      | cons b bs =>
          simp only [List.length_cons, Nat.add_right_cancel_iff] at h
          simp only [List.map_cons, addVec, List.zipWith_cons_cons, add_zero]
          exact congrArg (a :: ·) (ih bs h)

theorem addMat_map_zero (ln : Vec → Vec) (hln : lnPres ln) (m : Mat) :
    addMat m ((m.map ln).map (fun v => v.map (fun _ => 0))) = m := by
  induction m with
  | nil => rfl
  | cons v vs ih =>
      simp only [List.map_cons, addMat, List.zipWith_cons_cons]
      rw [show List.zipWith addVec vs ((vs.map ln).map (fun v => v.map (fun _ => 0))) =
            addMat vs ((vs.map ln).map (fun v => v.map (fun _ => 0))) from rfl, ih]
      exact congrArg (· :: vs) (addVec_map_zero v (ln v) (hln v))

theorem addT_zerosLike (ln : Vec → Vec) (hln : lnPres ln) (x : T3) :
    addT x (zerosLike (normT ln x)) = x := by
  induction x with
  | nil => rfl
  | cons m ms ih =>
      simp only [normT, List.map_cons, zerosLike, addT, List.zipWith_cons_cons]
      rw [show List.zipWith addMat ms ((ms.map (fun n => n.map ln)).map
            (fun n => n.map (fun v => v.map (fun _ => 0)))) =
            addT ms (zerosLike (normT ln ms)) from rfl, ih]
      exact congrArg (· :: ms) (addMat_map_zero ln hln m)

/-- C5: the residual sublayer returns exactly
input + transform(normalize(input)), with the normalization applied to the
pre-transformation input — stated against the formula transcribed from the
spec's words — and with a transformation returning zeros the output is the
input unchanged. -/
theorem c5_residual_formula (ln : Vec → Vec) (x : T3) (t : T3 → T3)
    (xf : Mat) (tf : Mat → Mat) (hln : lnPres ln) :
    subLayerForward ln x t = residualSpec ln x t ∧
    subLayerForwardFlat ln xf tf = residualSpecFlat ln xf tf ∧
    subLayerForward ln x zerosLike = x :=
  ⟨rfl, rfl, addT_zerosLike ln hln x⟩

/-- Concrete check of the residual sublayer contract with the identity
normalization. -/
theorem c5_witness :
    lnPres (fun v : Vec => v) ∧
    (subLayerForward (fun v => v) [[[1, 2]]] (fun y => y) =
       residualSpec (fun v => v) [[[1, 2]]] (fun y => y) ∧
     subLayerForwardFlat (fun v => v) [[3]] (fun y => y) =
       residualSpecFlat (fun v => v) [[3]] (fun y => y) ∧
     subLayerForward (fun v => v) [[[1, 2]]] zerosLike = [[[1, 2]]]) :=
  ⟨fun _ => rfl,
    c5_residual_formula (fun v => v) [[[1, 2]]] (fun y => y) [[3]] (fun y => y)
      (fun _ => rfl)⟩

/-! ### C10: the separately built cross-attention module is never consulted -/

/-- C10: `TransformerLayerDecoder.forward` invokes `self.attention` for both
the causal self-attention and the cross-attention sublayer and never calls
`self.decoder_attention`, so the output is unchanged under any replacement
of the `decoder_attention` weights — cross-attention shares weights with
self-attention. -/
theorem c10_cross_attention_shares (w : TransformerLayerDecoderW)
    (k1 k2 : Kernel) (train : Bool) (p : ℚ) (r : ℕ → ℕ → ℚ) (enc dec : T3) :
    transformerLayerDecoderForward { w with decoder_attention := k1 } train p r enc dec =
      transformerLayerDecoderForward { w with decoder_attention := k2 } train p r enc dec := rfl

/-! ### C6: the encoder applies its layers in sequence -/

/-- Default layer weights, used as the `getD` fallback when indexing a layer
list. -/
def defaultLayerW : TransformerLayerW :=
  { attention := idKernel,
    linear := { lin1 := { weight := [], bias := [] },
                lin2 := { weight := [], bias := [] } },
    ln0 := fun v => v,
    ln1 := fun v => v }

theorem encoderStack_length (train : Bool) (p : ℚ) (r : ℕ → ℕ → ℕ → ℚ)
    (i0 : ℕ) (ls : List TransformerLayerW) (x : T3) :
    (transformerEncoderStack train p r i0 ls x).2.length = ls.length := by
  induction ls generalizing i0 x with
  | nil => rfl
  | cons l ls ih => simp [transformerEncoderStack, ih]

theorem encoderStack_fst (train : Bool) (p : ℚ) (r : ℕ → ℕ → ℕ → ℚ)
    (i0 : ℕ) (ls : List TransformerLayerW) (x : T3) :
    (transformerEncoderStack train p r i0 ls x).1 =
      (transformerEncoderStack train p r i0 ls x).2.getLastD x := by
  induction ls generalizing i0 x with
  | nil => rfl
  | cons l ls ih =>
      simp only [transformerEncoderStack, List.getLastD_cons]
      exact ih (i0 + 1) (transformerLayerForward l train p (r i0) x)

theorem encoderStack_getD (train : Bool) (p : ℚ) (r : ℕ → ℕ → ℕ → ℚ)
    (ls : List TransformerLayerW) (x : T3) (i0 idx : ℕ) (h : idx < ls.length) :
    (transformerEncoderStack train p r i0 ls x).2.getD idx [] =
      transformerLayerForward (ls.getD idx defaultLayerW) train p (r (i0 + idx))
        (if idx = 0 then x
         else (transformerEncoderStack train p r i0 ls x).2.getD (idx - 1) []) := by
  induction ls generalizing x i0 idx with
  | nil => simp at h
  | cons l ls ih =>
      cases idx with
      | zero => simp [transformerEncoderStack]
      | succ k =>
          have h2 : k < ls.length := by simpa using h
          have h3 : i0 + 1 + k = i0 + (k + 1) := by omega
          simp only [transformerEncoderStack, List.getD_cons_succ, Nat.succ_ne_zero,
            if_false, Nat.add_one_sub_one]
          rw [ih _ _ _ h2, h3]
          cases k with
          | zero => simp
          | succ j => simp

/-- C6: the encoder stack feeds each layer's output into the next layer in
order, returns the ordered list of all per-layer outputs (one per layer),
and its final output is the last element of that list (the input itself for
an empty stack). -/
theorem c6_encoder_sequential (layers : List TransformerLayerW) (train : Bool)
    (p : ℚ) (r : ℕ → ℕ → ℕ → ℚ) (x : T3) (idx : ℕ) (h : idx < layers.length) :
    (transformerEncoderForward layers train p r x).2.length = layers.length ∧
    (transformerEncoderForward layers train p r x).2.getD idx [] =
      transformerLayerForward (layers.getD idx defaultLayerW) train p (r idx)
        (if idx = 0 then x
         else (transformerEncoderForward layers train p r x).2.getD (idx - 1) []) ∧
    (transformerEncoderForward layers train p r x).1 =
      (transformerEncoderForward layers train p r x).2.getLastD x := by
  refine ⟨encoderStack_length train p r 0 layers x, ?_,
    encoderStack_fst train p r 0 layers x⟩
  have e := encoderStack_getD train p r layers x 0 idx h
  rwa [Nat.zero_add] at e

/-- Concrete check of the encoder sequencing at a single-layer stack. -/
theorem c6_witness :
    0 < [defaultLayerW].length ∧
    ((transformerEncoderForward [defaultLayerW] false 0 (fun _ _ _ => 0) [[[1]]]).2.length =
       [defaultLayerW].length ∧
     (transformerEncoderForward [defaultLayerW] false 0 (fun _ _ _ => 0) [[[1]]]).2.getD 0 [] =
       transformerLayerForward ([defaultLayerW].getD 0 defaultLayerW) false 0
         ((fun _ _ _ => (0 : ℚ)) 0)
         (if 0 = 0 then [[[1]]]
          else (transformerEncoderForward [defaultLayerW] false 0
            (fun _ _ _ => 0) [[[1]]]).2.getD (0 - 1) []) ∧
     (transformerEncoderForward [defaultLayerW] false 0 (fun _ _ _ => 0) [[[1]]]).1 =
       (transformerEncoderForward [defaultLayerW] false 0 (fun _ _ _ => 0) [[[1]]]).2.getLastD
         [[[1]]]) :=
  ⟨by decide,
    c6_encoder_sequential [defaultLayerW] false 0 (fun _ _ _ => 0) [[[1]]] 0 (by decide)⟩

/-! ### C8: scalar hyperparameters broadcast; wrong-length lists error -/

theorem get_list_inl (n a : ℕ) :
    get_list (Sum.inl a) n = some (List.replicate n a) := rfl

theorem get_list_replicate (n a : ℕ) :
    get_list (Sum.inr (List.replicate n a)) n = some (List.replicate n a) := by
  simp [get_list]

/-- C8: supplying a scalar per-layer hyperparameter (head count or
feed-forward width) constructs exactly the same encoder configuration as the
explicit list repeating that scalar `num_layers` times, and supplying a list
whose length differs from `num_layers` produces no configuration at all —
the error surfaces at construction, before any forward pass exists. -/
theorem c8_broadcast (n a : ℕ) (hs ff : ℕ ⊕ List ℕ) (l : List ℕ)
    (hlen : l.length ≠ n) :
    transformerEncoderInit n (Sum.inl a) ff =
      transformerEncoderInit n (Sum.inr (List.replicate n a)) ff ∧
    transformerEncoderInit n hs (Sum.inl a) =
      transformerEncoderInit n hs (Sum.inr (List.replicate n a)) ∧
    transformerEncoderInit n (Sum.inr l) ff = none ∧
    transformerEncoderInit n hs (Sum.inr l) = none := by
  refine ⟨?_, ?_, ?_, ?_⟩
  · simp only [transformerEncoderInit, get_list_inl, get_list_replicate]
  · simp only [transformerEncoderInit, get_list_inl, get_list_replicate]
  · cases hf : get_list ff n <;> simp [transformerEncoderInit, get_list, hlen, hf]
  · simp [transformerEncoderInit, get_list, hlen]

/-- Concrete check of C8 at the spec's example: 3 layers, scalar head count
4 versus the list [4, 4, 4], and the wrong-length list [4, 4]. -/
theorem c8_witness :
    ([4, 4] : List ℕ).length ≠ 3 ∧
    (transformerEncoderInit 3 (Sum.inl 4) (Sum.inl 16) =
       transformerEncoderInit 3 (Sum.inr (List.replicate 3 4)) (Sum.inl 16) ∧
     transformerEncoderInit 3 (Sum.inl 4) (Sum.inl 16) =
       transformerEncoderInit 3 (Sum.inl 4) (Sum.inr (List.replicate 3 16)) ∧
     transformerEncoderInit 3 (Sum.inr [4, 4]) (Sum.inl 16) = none ∧
     transformerEncoderInit 3 (Sum.inl 4) (Sum.inr [4, 4]) = none) := by
  refine ⟨by decide, ?_⟩
  have h := c8_broadcast 3 (4 : ℕ) (Sum.inl 4) (Sum.inl 16) [4, 4] (by decide)
  have h2 := c8_broadcast 3 (16 : ℕ) (Sum.inl 4) (Sum.inl 16) [4, 4] (by decide)
  exact ⟨h.1, h2.2.1, h.2.2.1, h.2.2.2⟩

/-! ### Shape lemmas -/

theorem forall_mem_zipWith {α β γ : Type} (P : γ → Prop) (f : α → β → γ)
    (l₁ : List α) (l₂ : List β)
    (h : ∀ a ∈ l₁, ∀ b ∈ l₂, P (f a b)) :
    ∀ c ∈ List.zipWith f l₁ l₂, P c := by
  induction l₁ generalizing l₂ with
  | nil => simp
  | cons a as ih =>
      cases l₂ with
      | nil => simp
      | cons b bs =>
          intro c hc
          simp only [List.zipWith_cons_cons, List.mem_cons] at hc
          rcases hc with rfl | hc
          · exact h a (by simp) b (by simp)
          · exact ih bs (fun x hx y hy => h x (by simp [hx]) y (by simp [hy])) c hc

theorem addVec_length_eq (u v : Vec) (d : ℕ) (hu : u.length = d)
    (hv : v.length = d) : (addVec u v).length = d := by
  simp [addVec, hu, hv]

theorem addMat_shape (m n : Mat) (bs d : ℕ) (hm : MatShape m bs d)
    (hn : MatShape n bs d) : MatShape (addMat m n) bs d := by
  refine ⟨by simp [addMat, hm.1, hn.1], ?_⟩
  exact forall_mem_zipWith (fun v => v.length = d) addVec m n
    (fun a ha b hb => addVec_length_eq a b d (hm.2 a ha) (hn.2 b hb))

theorem addT_shape (s t : T3) (sl bs d : ℕ) (hs : T3Shape s sl bs d)
    (ht : T3Shape t sl bs d) : T3Shape (addT s t) sl bs d := by
  refine ⟨by simp [addT, hs.1, ht.1], ?_⟩
  exact forall_mem_zipWith (fun m => MatShape m bs d) addMat s t
    (fun a ha b hb => addMat_shape a b bs d (hs.2 a ha) (ht.2 b hb))

theorem mapLn_matShape (ln : Vec → Vec) (hln : lnPres ln) (m : Mat) (bs d : ℕ)
    (hm : MatShape m bs d) : MatShape (m.map ln) bs d := by
  refine ⟨by simp [hm.1], ?_⟩
  intro v hv
  rcases List.mem_map.1 hv with ⟨u, hu, rfl⟩
  rw [hln u]
  exact hm.2 u hu

theorem normT_shape (ln : Vec → Vec) (hln : lnPres ln) (t : T3) (sl bs d : ℕ)
    (ht : T3Shape t sl bs d) : T3Shape (normT ln t) sl bs d := by
  refine ⟨by simp [normT, ht.1], ?_⟩
  intro m hm
  rcases List.mem_map.1 hm with ⟨m0, hm0, rfl⟩
  exact mapLn_matShape ln hln m0 bs d (ht.2 m0 hm0)

theorem attentionLoop_shape (attn : Kernel) (keys values : T3) (n : ℕ)
    (mask : Bool) (bs d : ℕ) (hk : kernelOK attn bs d) (i0 : ℕ) (l : T3)
    (hl : ∀ step ∈ l, MatShape step bs d) :
    ∀ out ∈ attentionLoop attn keys values n mask i0 l, MatShape out bs d := by
  induction l generalizing i0 with
  | nil => simp [attentionLoop]
  | cons step rest ih =>
      intro out hout
      simp only [attentionLoop, List.mem_cons] at hout
      rcases hout with rfl | hout
      · exact hk _ _ _ (hl step (by simp))
      · exact ih (i0 + 1) (fun s hs => hl s (List.mem_cons_of_mem step hs)) out hout

theorem attentionForward_shape (attn : Kernel) (input keys values : T3)
    (mask : Bool) (sl bs d : ℕ) (hk : kernelOK attn bs d)
    (hin : T3Shape input sl bs d) :
    T3Shape (attentionForward attn input keys values mask) sl bs d := by
  refine ⟨?_, ?_⟩
  · rw [attentionForward, attentionLoop_length]; exact hin.1
  · exact attentionLoop_shape attn keys values input.length mask bs d hk 1 input hin.2

theorem subLayerForward_shape (ln : Vec → Vec) (hln : lnPres ln) (x : T3)
    (f : T3 → T3) (sl bs d : ℕ) (hx : T3Shape x sl bs d)
    (hf : ∀ y, T3Shape y sl bs d → T3Shape (f y) sl bs d) :
    T3Shape (subLayerForward ln x f) sl bs d :=
  addT_shape x (f (normT ln x)) sl bs d hx
    (hf (normT ln x) (normT_shape ln hln x sl bs d hx))

theorem flatten_shape (t : T3) (sl bs d : ℕ) (ht : T3Shape t sl bs d) :
    t.flatten.length = sl * bs ∧ ∀ v ∈ t.flatten, v.length = d := by
  constructor
  · rw [List.length_flatten]
    have hrep : t.map List.length = List.replicate sl bs := by
      rw [List.eq_replicate_iff]
      refine ⟨by simp [ht.1], ?_⟩
      intro b hb
      rcases List.mem_map.1 hb with ⟨m, hm, rfl⟩
      exact (ht.2 m hm).1
    rw [hrep, List.sum_const_nat]
  · intro v hv
    rcases List.mem_flatten.1 hv with ⟨m, hm, hvm⟩
    exact (ht.2 m hm).2 v hvm

theorem linearForward_length (l : LinearW) (v : Vec) (dout : ℕ)
    (hw : l.weight.length = dout) (hb : l.bias.length = dout) :
    (linearForward l v).length = dout := by
  simp [linearForward, hw, hb]

theorem dropoutRow_length (train : Bool) (p : ℚ) (ru : ℕ → ℚ) (row : Vec) :
    (dropoutRow train p ru row).length = row.length := by
  simp [dropoutRow]

theorem dropoutMat_shape (train : Bool) (p : ℚ) (r : ℕ → ℕ → ℚ) (m : Mat)
    (n d : ℕ) (hm : MatShape m n d) : MatShape (dropoutMat train p r m) n d := by
  refine ⟨by simp [dropoutMat, hm.1], ?_⟩
  intro v hv
  rcases List.mem_map.1 hv with ⟨i, hi, rfl⟩
  rw [dropoutRow_length]
  have hilt : i < m.length := List.mem_range.1 hi
  rw [List.getD_eq_getElem _ _ hilt]
  exact hm.2 m[i] (List.getElem_mem hilt)

theorem positionFeedForward_shape (w : PFFW) (train : Bool) (p : ℚ)
    (r : ℕ → ℕ → ℚ) (m : Mat) (n din d : ℕ) (hw : pffOK w d)
    (hm : MatShape m n din) :
    MatShape (positionFeedForward w train p r m) n d := by
  refine dropoutMat_shape train p r _ n d ⟨by simp [hm.1], ?_⟩
  intro v hv
  rcases List.mem_map.1 hv with ⟨u, _, rfl⟩
  exact linearForward_length w.lin2 _ d hw.1 hw.2

theorem subLayerForwardFlat_shape (ln : Vec → Vec) (hln : lnPres ln) (x : Mat)
    (f : Mat → Mat) (n d : ℕ) (hx : MatShape x n d)
    (hf : ∀ y, MatShape y n d → MatShape (f y) n d) :
    MatShape (subLayerForwardFlat ln x f) n d :=
  addMat_shape x (f (x.map ln)) n d hx
    (hf (x.map ln) (mapLn_matShape ln hln x n d hx))

theorem view3_shape (sl bs d : ℕ) (rows : Mat) (hlen : sl * bs ≤ rows.length)
    (hv : ∀ v ∈ rows, v.length = d) : T3Shape (view3 sl bs rows) sl bs d := by
  refine ⟨by simp [view3], ?_⟩
  intro m hm
  rcases List.mem_map.1 hm with ⟨i, hi, rfl⟩
  have hilt : i < sl := List.mem_range.1 hi
  refine ⟨by simp, ?_⟩
  intro v hvv
  rcases List.mem_map.1 hvv with ⟨j, hj, rfl⟩
  have hjlt : j < bs := List.mem_range.1 hj
  have hidx : i * bs + j < rows.length := by
    have h1 : i * bs + j < (i + 1) * bs := by
      rw [Nat.succ_mul]
      exact Nat.add_lt_add_left hjlt _
    have h2 : (i + 1) * bs ≤ sl * bs := Nat.mul_le_mul_right bs hilt
    omega
  rw [List.getD_eq_getElem _ _ hidx]
  exact hv rows[i * bs + j] (List.getElem_mem hidx)

/-! ### C7: the encoder layer preserves the input tensor's shape -/

theorem transformerLayerForward_shape (w : TransformerLayerW) (train : Bool)
    (p : ℚ) (r : ℕ → ℕ → ℚ) (x : T3) (sl bs d : ℕ) (hw : layerOK w bs d)
    (hx : T3Shape x sl bs d) :
    T3Shape (transformerLayerForward w train p r x) sl bs d := by
  obtain ⟨hk, hln0, hln1, hpff⟩ := hw
  cases x with
  | nil =>
      have e : transformerLayerForward w train p r [] = [] := rfl
      rw [e]
      exact ⟨hx.1, by simp⟩
  | cons m ms =>
      have hAtt : T3Shape (subLayerForward w.ln0 (m :: ms)
          (fun y => attentionForward w.attention y y y false)) sl bs d :=
        subLayerForward_shape w.ln0 hln0 (m :: ms) _ sl bs d hx
          (fun y hy => attentionForward_shape w.attention y y y false sl bs d hk hy)
      have hflat := flatten_shape _ sl bs d hAtt
      have hsub : MatShape (subLayerForwardFlat w.ln1
          (subLayerForward w.ln0 (m :: ms)
            (fun y => attentionForward w.attention y y y false)).flatten
          (positionFeedForward w.linear train p r)) (sl * bs) d :=
        subLayerForwardFlat_shape w.ln1 hln1 _ _ (sl * bs) d ⟨hflat.1, hflat.2⟩
          (fun y hy => positionFeedForward_shape w.linear train p r y (sl * bs) d d hpff hy)
      have hsl : (m :: ms).length = sl := hx.1
      have hbs : ((m :: ms).headD []).length = bs := (hx.2 m (List.mem_cons_self m ms)).1
      simp only [transformerLayerForward]
      rw [hsl, hbs]
      exact view3_shape sl bs d _ (le_of_eq hsub.1.symm) hsub.2

theorem transformerLayerDecoderForward_shape (w : TransformerLayerDecoderW)
    (train : Bool) (p : ℚ) (r : ℕ → ℕ → ℚ) (enc dec : T3) (sl bs d : ℕ)
    (hw : decLayerOK w bs d) (hdec : T3Shape dec sl bs d) :
    T3Shape (transformerLayerDecoderForward w train p r enc dec) sl bs d := by
  obtain ⟨hk, hln0, hln1, hln2, hpff⟩ := hw
  cases dec with
  | nil =>
      have e : transformerLayerDecoderForward w train p r enc [] = [] := rfl
      rw [e]
      exact ⟨hdec.1, by simp⟩
  | cons m ms =>
      have hAtt : T3Shape (subLayerForward w.ln0 (m :: ms)
          (fun y => attentionForward w.attention y y y true)) sl bs d :=
        subLayerForward_shape w.ln0 hln0 (m :: ms) _ sl bs d hdec
          (fun y hy => attentionForward_shape w.attention y y y true sl bs d hk hy)
      have hDecAtt : T3Shape (subLayerForward w.ln1
          (subLayerForward w.ln0 (m :: ms)
            (fun y => attentionForward w.attention y y y true))
          (fun y => attentionForward w.attention y enc enc false)) sl bs d :=
        subLayerForward_shape w.ln1 hln1 _ _ sl bs d hAtt
          (fun y hy => attentionForward_shape w.attention y enc enc false sl bs d hk hy)
      have hflat := flatten_shape _ sl bs d hDecAtt
      have hsub : MatShape (subLayerForwardFlat w.ln2
          (subLayerForward w.ln1
            (subLayerForward w.ln0 (m :: ms)
              (fun y => attentionForward w.attention y y y true))
            (fun y => attentionForward w.attention y enc enc false)).flatten
          (positionFeedForward w.linear train p r)) (sl * bs) d :=
        subLayerForwardFlat_shape w.ln2 hln2 _ _ (sl * bs) d ⟨hflat.1, hflat.2⟩
          (fun y hy => positionFeedForward_shape w.linear train p r y (sl * bs) d d hpff hy)
      have hsl : (m :: ms).length = sl := hdec.1
      have hbs : ((m :: ms).headD []).length = bs := (hdec.2 m (List.mem_cons_self m ms)).1
      simp only [transformerLayerDecoderForward]
      rw [hsl, hbs]
      exact view3_shape sl bs d _ (le_of_eq hsub.1.symm) hsub.2

/-- C7: for every well-formed configuration — the attention kernel obeying
its shape contract, the norms length-preserving, the feed-forward projecting
back to the feature width — and every input of shape (sl, bs, dim), the
encoder layer's output has exactly the input's shape. -/
theorem c7_layer_shape (w : TransformerLayerW) (train : Bool) (p : ℚ)
    (r : ℕ → ℕ → ℚ) (x : T3) (sl bs d : ℕ) (hw : layerOK w bs d)
    (hx : T3Shape x sl bs d) :
    T3Shape (transformerLayerForward w train p r x) sl bs d :=
  transformerLayerForward_shape w train p r x sl bs d hw hx

/-- Concrete linear weights for witnesses: the identity on one feature. -/
def witLinear : LinearW := { weight := [[1]], bias := [0] }

/-- Concrete feed-forward weights for witnesses. -/
def witPFF : PFFW := { lin1 := witLinear, lin2 := witLinear }

/-- Concrete well-formed encoder-layer weights for witnesses. -/
def witLayer : TransformerLayerW :=
  { attention := idKernel, linear := witPFF, ln0 := fun v => v, ln1 := fun v => v }

/-- Concrete well-formed decoder-layer weights for witnesses. -/
def witDecLayer : TransformerLayerDecoderW :=
  { attention := idKernel, decoder_attention := idKernel, linear := witPFF,
    ln0 := fun v => v, ln1 := fun v => v, ln2 := fun v => v }

/-- Concrete check of shape preservation at a (1, 1, 1) input. -/
theorem c7_witness :
    (layerOK witLayer 1 1 ∧ T3Shape [[[1]]] 1 1 1) ∧
    T3Shape (transformerLayerForward witLayer false 0 (fun _ _ => 0) [[[1]]]) 1 1 1 :=
  ⟨⟨⟨fun _ _ _ h => h, fun _ => rfl, fun _ => rfl, rfl, rfl⟩, by decide⟩,
    c7_layer_shape witLayer false 0 (fun _ _ => 0) [[[1]]] 1 1 1
      ⟨fun _ _ _ h => h, fun _ => rfl, fun _ => rfl, rfl, rfl⟩ (by decide)⟩

/-! ### C4: the decoder stack zips encoder outputs with its layers -/

/-- Default decoder-layer weights, used as the `getD` fallback. -/
def defaultDecLayerW : TransformerLayerDecoderW :=
  { attention := idKernel, decoder_attention := idKernel,
    linear := { lin1 := { weight := [], bias := [] },
                lin2 := { weight := [], bias := [] } },
    ln0 := fun v => v, ln1 := fun v => v, ln2 := fun v => v }

theorem decoderStack_length (train : Bool) (p : ℚ) (r : ℕ → ℕ → ℕ → ℚ)
    (i0 : ℕ) (es : List T3) (ls : List TransformerLayerDecoderW) (x : T3) :
    (transformerDecoderStack train p r i0 es ls x).2.length =
      min es.length ls.length := by
  induction es generalizing i0 ls x with
  | nil => simp [transformerDecoderStack]
  | cons e es ih =>
      cases ls with
      | nil => simp [transformerDecoderStack]
      | cons l ls =>
          simp [transformerDecoderStack, ih, Nat.succ_min_succ]

theorem decoderStack_fst (train : Bool) (p : ℚ) (r : ℕ → ℕ → ℕ → ℚ)
    (i0 : ℕ) (es : List T3) (ls : List TransformerLayerDecoderW) (x : T3) :
    (transformerDecoderStack train p r i0 es ls x).1 =
      (transformerDecoderStack train p r i0 es ls x).2.getLastD x := by
  induction es generalizing i0 ls x with
  | nil => rfl
  | cons e es ih =>
      cases ls with
      | nil => rfl
      | cons l ls =>
          simp only [transformerDecoderStack, List.getLastD_cons]
          exact ih (i0 + 1) ls (transformerLayerDecoderForward l train p (r i0) e x)

theorem decoderStack_getD (train : Bool) (p : ℚ) (r : ℕ → ℕ → ℕ → ℚ)
    (es : List T3) (ls : List TransformerLayerDecoderW) (x : T3) (i0 idx : ℕ)
    (h : idx < min es.length ls.length) :
    (transformerDecoderStack train p r i0 es ls x).2.getD idx [] =
      transformerLayerDecoderForward (ls.getD idx defaultDecLayerW) train p
        (r (i0 + idx)) (es.getD idx [])
        (if idx = 0 then x
         else (transformerDecoderStack train p r i0 es ls x).2.getD (idx - 1) []) := by
  induction es generalizing i0 idx ls x with
  | nil => simp at h
  | cons e es ih =>
      cases ls with
      | nil => simp at h
      | cons l ls =>
          cases idx with
          | zero => simp [transformerDecoderStack]
          | succ k =>
              have h2 : k < min es.length ls.length := by
                simp only [List.length_cons] at h
                omega
              have h3 : i0 + 1 + k = i0 + (k + 1) := by omega
              simp only [transformerDecoderStack, List.getD_cons_succ,
                Nat.succ_ne_zero, if_false, Nat.add_one_sub_one]
              rw [ih ls _ (i0 + 1) k h2, h3]
              cases k with
              | zero => simp
              | succ j => simp

theorem decoderStack_shape (train : Bool) (p : ℚ) (r : ℕ → ℕ → ℕ → ℚ)
    (sl bs d : ℕ) (es : List T3) (ls : List TransformerLayerDecoderW) (x : T3)
    (i0 : ℕ) (hx : T3Shape x sl bs d) (hls : ∀ w ∈ ls, decLayerOK w bs d) :
    ∀ o ∈ (transformerDecoderStack train p r i0 es ls x).2, T3Shape o sl bs d := by
  induction es generalizing i0 ls x with
  | nil => simp [transformerDecoderStack]
  | cons e es ih =>
      cases ls with
      | nil => simp [transformerDecoderStack]
      | cons l ls =>
          intro o ho
          simp only [transformerDecoderStack, List.mem_cons] at ho
          have hout : T3Shape (transformerLayerDecoderForward l train p (r i0) e x)
              sl bs d :=
            transformerLayerDecoderForward_shape l train p (r i0) e x sl bs d
              (hls l (by simp)) hx
          rcases ho with rfl | ho
          · exact hout
          · exact ih ls _ (i0 + 1) hout
              (fun w hw => hls w (List.mem_cons_of_mem l hw)) o ho

/-- C4: the decoder stack applies its layers zipped pairwise with the
supplied encoder-layer outputs, stopping at the shorter list (the output
list has length min(M, N)); output `i` is layer `i` applied to encoder
output `i` and the threaded decoder state; the final output is the last
per-layer output (the decoder input for an empty zip); when exactly N
encoder outputs are supplied the stack produces exactly N outputs, each
shaped like the decoder input for well-formed layer weights. -/
theorem c4_decoder_zip (layers : List TransformerLayerDecoderW) (encs : List T3)
    (dec : T3) (train : Bool) (p : ℚ) (r : ℕ → ℕ → ℕ → ℚ) (idx : ℕ)
    (sl bs d : ℕ) (h : idx < min encs.length layers.length) :
    (transformerDecoderForward layers train p r encs dec).2.length =
      min encs.length layers.length ∧
    (transformerDecoderForward layers train p r encs dec).2.getD idx [] =
      transformerLayerDecoderForward (layers.getD idx defaultDecLayerW) train p
        (r idx) (encs.getD idx [])
        (if idx = 0 then dec
         else (transformerDecoderForward layers train p r encs dec).2.getD (idx - 1) []) ∧
    (transformerDecoderForward layers train p r encs dec).1 =
      (transformerDecoderForward layers train p r encs dec).2.getLastD dec ∧
    (encs.length = layers.length →
      (transformerDecoderForward layers train p r encs dec).2.length = layers.length) ∧
    (T3Shape dec sl bs d → (∀ w ∈ layers, decLayerOK w bs d) →
      ∀ o ∈ (transformerDecoderForward layers train p r encs dec).2, T3Shape o sl bs d) := by
  refine ⟨decoderStack_length train p r 0 encs layers dec, ?_,
    decoderStack_fst train p r 0 encs layers dec, ?_, ?_⟩
  · have e := decoderStack_getD train p r encs layers dec 0 idx h
    rwa [Nat.zero_add] at e
  · intro hlen
    have e := decoderStack_length train p r 0 encs layers dec
    rw [hlen, Nat.min_self] at e
    exact e
  · intro hdec hws
    exact decoderStack_shape train p r sl bs d encs layers dec 0 hdec hws

/-- Concrete check of the decoder zip at one layer, one encoder output. -/
theorem c4_witness :
    0 < min [([[[(2 : ℚ)]]] : T3)].length [witDecLayer].length ∧
    ((transformerDecoderForward [witDecLayer] false 0 (fun _ _ _ => 0)
        [[[[2]]]] [[[1]]]).2.length =
       min [([[[(2 : ℚ)]]] : T3)].length [witDecLayer].length ∧
     (transformerDecoderForward [witDecLayer] false 0 (fun _ _ _ => 0)
        [[[[2]]]] [[[1]]]).2.getD 0 [] =
       transformerLayerDecoderForward ([witDecLayer].getD 0 defaultDecLayerW) false 0
         ((fun _ _ _ => (0 : ℚ)) 0) ([([[[(2 : ℚ)]]] : T3)].getD 0 [])
         (if 0 = 0 then [[[1]]]
          else (transformerDecoderForward [witDecLayer] false 0 (fun _ _ _ => 0)
            [[[[2]]]] [[[1]]]).2.getD (0 - 1) []) ∧
     (transformerDecoderForward [witDecLayer] false 0 (fun _ _ _ => 0)
        [[[[2]]]] [[[1]]]).1 =
       (transformerDecoderForward [witDecLayer] false 0 (fun _ _ _ => 0)
          [[[[2]]]] [[[1]]]).2.getLastD [[[1]]] ∧
     ([([[[(2 : ℚ)]]] : T3)].length = [witDecLayer].length →
       (transformerDecoderForward [witDecLayer] false 0 (fun _ _ _ => 0)
          [[[[2]]]] [[[1]]]).2.length = [witDecLayer].length) ∧
     (T3Shape [[[1]]] 1 1 1 → (∀ w ∈ [witDecLayer], decLayerOK w 1 1) →
       ∀ o ∈ (transformerDecoderForward [witDecLayer] false 0 (fun _ _ _ => 0)
          [[[[2]]]] [[[1]]]).2, T3Shape o 1 1 1)) :=
  ⟨by decide,
    c4_decoder_zip [witDecLayer] [[[[2]]]] [[[1]]] false 0 (fun _ _ _ => 0) 0 1 1 1
      (by decide)⟩

/-! ### C9: determinism once dropout is disabled -/

/-- Valid dropout draw streams: uniform draws are never negative. -/
def validDraws (r : ℕ → ℕ → ℕ → ℚ) : Prop := ∀ i j k, 0 ≤ r i j k

theorem dropoutElem_id (train : Bool) (p u x : ℚ) (h : p = 0 ∨ train = false)
    (hu : 0 ≤ u) : dropoutElem train p u x = x := by
  cases train with
  | false => rfl
  | true =>
      have hp : p = 0 := by
        rcases h with hp | ht
        · exact hp
        · exact absurd ht (by simp)
      subst hp
      simp [dropoutElem, not_lt.2 hu]

theorem dropoutRow_id (train : Bool) (p : ℚ) (ru : ℕ → ℚ) (row : Vec)
    (h : p = 0 ∨ train = false) (hu : ∀ j, 0 ≤ ru j) :
    dropoutRow train p ru row = row := by
  apply List.ext_getElem
  · simp [dropoutRow]
  · intro i h1 h2
    have hi : i < (List.range row.length).length := by simpa [dropoutRow] using h1
    simp only [dropoutRow, List.getElem_map, List.getElem_range]
    rw [dropoutElem_id train p (ru i) _ h (hu i)]
    exact List.getD_eq_getElem row 0 h2

theorem dropoutMat_id (train : Bool) (p : ℚ) (r : ℕ → ℕ → ℚ) (m : Mat)
    (h : p = 0 ∨ train = false) (hu : ∀ i j, 0 ≤ r i j) :
    dropoutMat train p r m = m := by
  apply List.ext_getElem
  · simp [dropoutMat]
  · intro i h1 h2
    simp only [dropoutMat, List.getElem_map, List.getElem_range]
    rw [dropoutRow_id train p (r i) _ h (hu i)]
    exact List.getD_eq_getElem m [] h2

theorem positionFeedForward_indep (w : PFFW) (train : Bool) (p : ℚ)
    (r1 r2 : ℕ → ℕ → ℚ) (m : Mat) (h : p = 0 ∨ train = false)
    (h1 : ∀ i j, 0 ≤ r1 i j) (h2 : ∀ i j, 0 ≤ r2 i j) :
    positionFeedForward w train p r1 m = positionFeedForward w train p r2 m := by
  unfold positionFeedForward
  rw [dropoutMat_id train p r1 _ h h1, dropoutMat_id train p r2 _ h h2]

theorem transformerLayerForward_indep (w : TransformerLayerW) (train : Bool)
    (p : ℚ) (r1 r2 : ℕ → ℕ → ℚ) (x : T3) (h : p = 0 ∨ train = false)
    (h1 : ∀ i j, 0 ≤ r1 i j) (h2 : ∀ i j, 0 ≤ r2 i j) :
    transformerLayerForward w train p r1 x = transformerLayerForward w train p r2 x := by
  have e : positionFeedForward w.linear train p r1 =
      positionFeedForward w.linear train p r2 :=
    funext (fun m => positionFeedForward_indep w.linear train p r1 r2 m h h1 h2)
  simp only [transformerLayerForward]
  rw [e]

theorem transformerLayerDecoderForward_indep (w : TransformerLayerDecoderW)
    (train : Bool) (p : ℚ) (r1 r2 : ℕ → ℕ → ℚ) (enc dec : T3)
    (h : p = 0 ∨ train = false) (h1 : ∀ i j, 0 ≤ r1 i j)
    (h2 : ∀ i j, 0 ≤ r2 i j) :
    transformerLayerDecoderForward w train p r1 enc dec =
      transformerLayerDecoderForward w train p r2 enc dec := by
  have e : positionFeedForward w.linear train p r1 =
      positionFeedForward w.linear train p r2 :=
    funext (fun m => positionFeedForward_indep w.linear train p r1 r2 m h h1 h2)
  simp only [transformerLayerDecoderForward]
  rw [e]

theorem encoderStack_indep (train : Bool) (p : ℚ) (r1 r2 : ℕ → ℕ → ℕ → ℚ)
    (h : p = 0 ∨ train = false) (h1 : validDraws r1) (h2 : validDraws r2)
    (i0 : ℕ) (ls : List TransformerLayerW) (x : T3) :
    transformerEncoderStack train p r1 i0 ls x =
      transformerEncoderStack train p r2 i0 ls x := by
  induction ls generalizing i0 x with
  | nil => rfl
  | cons l ls ih =>
      simp only [transformerEncoderStack]
      rw [transformerLayerForward_indep l train p (r1 i0) (r2 i0) x h (h1 i0) (h2 i0),
        ih (i0 + 1) (transformerLayerForward l train p (r2 i0) x)]

theorem decoderStack_indep (train : Bool) (p : ℚ) (r1 r2 : ℕ → ℕ → ℕ → ℚ)
    (h : p = 0 ∨ train = false) (h1 : validDraws r1) (h2 : validDraws r2)
    (i0 : ℕ) (es : List T3) (ls : List TransformerLayerDecoderW) (x : T3) :
    transformerDecoderStack train p r1 i0 es ls x =
      transformerDecoderStack train p r2 i0 es ls x := by
  induction es generalizing i0 ls x with
  | nil => rfl
  | cons e es ih =>
      cases ls with
      | nil => rfl
      | cons l ls =>
          simp only [transformerDecoderStack]
          rw [transformerLayerDecoderForward_indep l train p (r1 i0) (r2 i0) e x h
              (h1 i0) (h2 i0),
            ih (i0 + 1) ls (transformerLayerDecoderForward l train p (r2 i0) e x)]

/-- C9: with dropout disabled — rate 0, or training mode off — the encoder
and decoder stack forwards are deterministic: the dropout draw streams are
the only per-call inputs beyond weights and data, and two runs with any two
valid draw streams produce identical outputs. -/
theorem c9_determinism (layersE : List TransformerLayerW)
    (layersD : List TransformerLayerDecoderW) (train : Bool) (p : ℚ)
    (r1 r2 : ℕ → ℕ → ℕ → ℚ) (x : T3) (encs : List T3) (dec : T3)
    (h : p = 0 ∨ train = false) (h1 : validDraws r1) (h2 : validDraws r2) :
    transformerEncoderForward layersE train p r1 x =
      transformerEncoderForward layersE train p r2 x ∧
    transformerDecoderForward layersD train p r1 encs dec =
      transformerDecoderForward layersD train p r2 encs dec :=
  ⟨encoderStack_indep train p r1 r2 h h1 h2 0 layersE x,
    decoderStack_indep train p r1 r2 h h1 h2 0 encs layersD dec⟩

/-- Concrete check of determinism: training mode with rate 0, one encoder
layer and one decoder layer, two different draw streams. -/
theorem c9_witness :
    ((0 : ℚ) = 0 ∨ true = false) ∧ validDraws (fun _ _ _ => 0) ∧
      validDraws (fun _ _ _ => 1 / 2) ∧
    (transformerEncoderForward [witLayer] true 0 (fun _ _ _ => 0) [[[1]]] =
       transformerEncoderForward [witLayer] true 0 (fun _ _ _ => 1 / 2) [[[1]]] ∧
     transformerDecoderForward [witDecLayer] true 0 (fun _ _ _ => 0) [[[[2]]]] [[[1]]] =
       transformerDecoderForward [witDecLayer] true 0 (fun _ _ _ => 1 / 2) [[[[2]]]] [[[1]]]) :=
  ⟨Or.inl rfl, fun _ _ _ => le_refl 0, fun _ _ _ => by norm_num,
    c9_determinism [witLayer] [witDecLayer] true 0 (fun _ _ _ => 0)
      (fun _ _ _ => 1 / 2) [[[1]]] [[[[2]]]] [[[1]]] (Or.inl rfl)
      (fun _ _ _ => le_refl 0) (fun _ _ _ => by norm_num)⟩

end QuickNLP
